import Mathlib

/-!
Verification of the `courses` app of the django-edu repository.

The development shallowly embeds the data model (`courses/models.py`),
the self-ordering field (`courses/fields.py`) and the views
(`courses/views.py`) that the claims are about.  The relational store is
modelled as lists of rows; foreign keys are ids; the four concrete
content-item tables (Text, File, Image, Video) are modelled as one list
of rows keyed by a (kind, id) pair, which is exactly how the generic
(content_type, object_id) association addresses them.  Positions are
modelled as `Int` so that the non-negativity enforced by
`PositiveIntegerField`'s database check constraint is a provable
invariant rather than a typing artefact.
-/

deriving instance DecidableEq for Except

namespace Edu

/-- The four permitted content kinds: the `limit_choices_to`
set `{'text', 'video', 'image', 'file'}` of `Content.content_type`
(models.py), each naming one concrete item table. -/
inductive Kind where
  | text
  | video
  | image
  | file
deriving Repr, DecidableEq

/-- A row of the `Course` table (models.py).  `owner` and `subject` are
foreign keys, modelled as ids.  The `created` timestamp is irrelevant to
every claim and omitted. -/
structure Course where
  id : Nat
  owner : Nat
  subject : Nat
  title : String
  slug : String
  overview : String
deriving Repr, DecidableEq

/-- A row of the `Module` table (models.py): a foreign key `course`, the
text fields, and `order = OrderField(blank=True, for_fields=['course'])`.
Persisted rows always carry a concrete order value. -/
structure Module where
  id : Nat
  course : Nat
  title : String
  description : String
  order : Int
deriving Repr, DecidableEq

/-- A row of the `Content` table (models.py): foreign key `module`, the
generic association `(content_type, object_id)`, and
`order = OrderField(blank=True, for_fields=['module'])`. -/
structure Content where
  id : Nat
  module : Nat
  content_type : Kind
  object_id : Nat
  order : Int
deriving Repr, DecidableEq

/-- A row of one of the four concrete item tables (`Text`, `File`,
`Image`, `Video`), all of which inherit `owner`, `title` and timestamps
from `ItemBase`; `kind` records which table the row lives in and
`payload` stands for the kind-specific column (`content`, `file`, or
`url`). -/
structure Item where
  kind : Kind
  id : Nat
  owner : Nat
  title : String
  payload : String
deriving Repr, DecidableEq

/-- The relational store backing the app: one list of rows per table. -/
structure DB where
  courses : List Course
  modules : List Module
  contents : List Content
  items : List Item
deriving Repr, DecidableEq

/-! ## `courses/fields.py` : OrderField -/

/-- `OrderField.__init__` stores the `for_fields` argument
(default `None`). -/
structure OrderField where
  for_fields : Option (List String)
deriving Repr, DecidableEq

/-- Python truthiness of the `for_fields` attribute as tested by
`if self.for_fields:` — both `None` and an empty list are falsy. -/
def for_fields_truthy : Option (List String) → Bool
  | none => false
  | some fs => !fs.isEmpty

/-- `qs.latest(self.attname)` returns the row with the greatest order
value (raising `ObjectDoesNotExist` on an empty queryset), after which
`pre_save` reads `last_item.order`; this function returns that greatest
order value directly, `none` standing for the exception. -/
def latestOrderVal {α : Type} (order : α → Int) : List α → Option Int
  | [] => none
  | r :: rs => some (rs.foldl (fun acc x => max acc (order x)) (order r))

/-- The queryset `pre_save` computes the maximum over: all rows of the
field's model, filtered — when `for_fields` is truthy — down to those
whose `for_fields` attributes equal the saved instance's current values
(fields.py lines 28-37). -/
def scopeQS {α : Type} (field : OrderField) (objects_all : List α)
    (fieldVal : α → String → Nat) (instVal : String → Nat) : List α :=
  if for_fields_truthy field.for_fields then
    objects_all.filter (fun r =>
      (field.for_fields.getD []).all (fun f => fieldVal r f == instVal f))
  else objects_all

/-- `OrderField.pre_save(model_instance, add)` (fields.py lines 17-55).
`objects_all` is `self.model.objects.all()`; `fieldVal r f` is
`getattr(r, f)` for the scope fields (foreign keys read as ids);
`order` reads the persisted order column; `instVal`/`instOrder` are the
attribute values of the instance being saved.  Returns the column value
that will be written: the computed one when the attribute is `None`,
otherwise the attribute unchanged (`super().pre_save` returns
`getattr(model_instance, self.attname)`). -/
def OrderField.pre_save {α : Type} (field : OrderField) (objects_all : List α)
    (fieldVal : α → String → Nat) (order : α → Int)
    (instVal : String → Nat) (instOrder : Option Int) : Int :=
  match instOrder with
  | none =>
    let qs := scopeQS field objects_all fieldVal instVal
    match latestOrderVal order qs with
    | some last_order => last_order + 1
    | none => 0
  | some v => v

/-- `Module.order = OrderField(blank=True, for_fields=['course'])`. -/
def Module.order_field : OrderField := ⟨some ["course"]⟩

/-- `getattr` on a `Module` for the scope fields: `module.course` is the
foreign key, read as the course id. -/
def Module.fieldVal (m : Module) (f : String) : Nat :=
  if f = "course" then m.course else 0

/-- Inserting a `Module` row: Django calls each field's `pre_save`
before the INSERT, so the persisted order column is what
`OrderField.pre_save` returns for the instance's current attributes. -/
def Module.save (db : DB) (id course : Nat) (title description : String)
    (order : Option Int) : DB :=
  let value := Module.order_field.pre_save db.modules Module.fieldVal Module.order
      (fun f => if f = "course" then course else 0) order
  { db with modules := db.modules ++ [⟨id, course, title, description, value⟩] }

/-- A module created through `ModuleFormSet` (forms.py): the formset's
fields are only `title` and `description`, so the new instance reaches
`save` with its order attribute unset. -/
def createModule (db : DB) (id course : Nat) (title description : String) : DB :=
  Module.save db id course title description none

/-- `Content.order = OrderField(blank=True, for_fields=['module'])`. -/
def Content.order_field : OrderField := ⟨some ["module"]⟩

/-- `getattr` on a `Content` for the scope fields. -/
def Content.fieldVal (c : Content) (f : String) : Nat :=
  if f = "module" then c.module else 0

/-- Inserting a `Content` row, with `pre_save` supplying the order
column. -/
def Content.save (db : DB) (id module : Nat) (content_type : Kind)
    (object_id : Nat) (order : Option Int) : DB :=
  let value := Content.order_field.pre_save db.contents Content.fieldVal Content.order
      (fun f => if f = "module" then module else 0) order
  { db with contents := db.contents ++ [⟨id, module, content_type, object_id, value⟩] }

/-- `Content.objects.create(module=self.module, item=obj)`
(views.py line 251): the order attribute is unset, so `pre_save`
computes it. -/
def createContent (db : DB) (id module : Nat) (content_type : Kind)
    (object_id : Nat) : DB :=
  Content.save db id module content_type object_id none

/-! ## Ownership chain and lookups -/

/-- `Course.objects.get(id=cid)` modulo existence: first row with this
id. -/
def findCourse (courses : List Course) (cid : Nat) : Option Course :=
  courses.find? (fun c => c.id == cid)

/-- The filter `course__owner=user` applied to a module: the join
follows the `course` foreign key and compares the course's `owner`. -/
def moduleOwned (courses : List Course) (user : Nat) (m : Module) : Bool :=
  match findCourse courses m.course with
  | some c => c.owner == user
  | none => false

/-- First module with a given id. -/
def findModule (modules : List Module) (mid : Nat) : Option Module :=
  modules.find? (fun m => m.id == mid)

/-- The filter `module__course__owner=user` applied to a content row:
the join follows `module` then `course` and compares `owner`. -/
def contentOwned (courses : List Course) (modules : List Module) (user : Nat)
    (c : Content) : Bool :=
  match findModule modules c.module with
  | some m => moduleOwned courses user m
  | none => false

/-- `get_object_or_404(Module, id=module_id, course__owner=request.user)`
without the 404 (that is decided by the caller): the matching row, if
any. -/
def findModuleOwned (db : DB) (user mid : Nat) : Option Module :=
  db.modules.find? (fun m => m.id == mid && moduleOwned db.courses user m)

/-- `get_object_or_404(Content, id=id, module__course__owner=request.user)`
without the 404. -/
def findContentOwned (db : DB) (user cid : Nat) : Option Content :=
  db.contents.find? (fun c => c.id == cid && contentOwned db.courses db.modules user c)

/-- Resolving the generic foreign key `content.item`: the row of the
table selected by `content_type` whose id is `object_id`. -/
def findItem (items : List Item) (k : Kind) (iid : Nat) : Option Item :=
  items.find? (fun it => it.kind == k && it.id == iid)

/-- `get_object_or_404(self.model, id=id, owner=request.user)` without
the 404: lookup in the table of kind `k`, filtered by owner. -/
def findItemOwned (db : DB) (k : Kind) (iid user : Nat) : Option Item :=
  db.items.find? (fun it => it.kind == k && it.id == iid && it.owner == user)

/-! ## HTTP outcomes -/

/-- The outcome of a request as the claims observe it: a normal
response, an `Http404` raised by `get_object_or_404`, or an unhandled
exception (a crash surfacing as a server error). -/
inductive Http (α : Type) where
  | ok : α → Http α
  | notFound : Http α
  | serverError : Http α
deriving Repr, DecidableEq

/-! ## `courses/views.py` : ContentCreateUpdateView -/

/-- `apps.get_model(app_label='courses', model_name=model_name)` for the
four content models registered in the app. -/
def appsGetModel : String → Option Kind
  | "text" => some Kind.text
  | "video" => some Kind.video
  | "image" => some Kind.image
  | "file" => some Kind.file
  | _ => none

/-- `ContentCreateUpdateView.get_model` (views.py lines 189-198): the
membership check against the fixed list, returning `None` when the name
is not one of the four kinds. -/
def ContentCreateUpdateView.get_model (model_name : String) : Option Kind :=
  if ["text", "video", "image", "file"].contains model_name then
    appsGetModel model_name
  else
    none

/-- The per-request state `dispatch` stores on the view: `self.module`,
`self.model` (possibly `None`), `self.obj` (set only when an id was
supplied). -/
structure DispatchState where
  module : Module
  model : Option Kind
  obj : Option Item
deriving Repr, DecidableEq

/-- `ContentCreateUpdateView.dispatch` (views.py lines 211-223), in
source order: first the module lookup (`get_object_or_404` raising
`Http404`), then `get_model`, then — only when an id was supplied — the
item lookup.  When `model_name` is unrecognized, `self.model` is `None`
and `get_object_or_404(None, ...)` raises `ValueError`, an unhandled
exception. -/
def ContentCreateUpdateView.dispatch (db : DB) (user module_id : Nat)
    (model_name : String) (id : Option Nat) : Http DispatchState :=
  match findModuleOwned db user module_id with
  | none => Http.notFound
  | some m =>
    let model := ContentCreateUpdateView.get_model model_name
    match id with
    | none => Http.ok ⟨m, model, none⟩
    | some i =>
      match model with
      | none => Http.serverError
      | some k =>
        match findItemOwned db k i user with
        | none => Http.notFound
        | some it => Http.ok ⟨m, model, some it⟩

/-- The data a client can submit through the form that
`ContentCreateUpdateView.get_form` builds with
`modelform_factory(model, exclude=['owner', 'order', 'created',
'updated'])` (views.py lines 200-209): only the model's remaining
editable fields — `title` and the kind-specific payload column — so the
owner can never be part of the submitted data. -/
structure ItemForm where
  title : String
  payload : String
deriving Repr, DecidableEq

/-- `form.is_valid()` for the generated model form: both remaining
fields are required (`CharField`/`TextField`/`FileField`/`URLField`
with the default `blank=False`), so validation succeeds exactly when
both are non-empty. -/
def ItemForm.is_valid (f : ItemForm) : Bool :=
  f.title != "" && f.payload != ""

/-- `ContentCreateUpdateView.post` (views.py lines 233-253), composed
with `dispatch`.  `get_form(self.model, ...)` with `self.model = None`
raises inside `modelform_factory` before anything is validated.  On a
valid form: `obj = form.save(commit=False)` (a new item, or the looked
up one with the submitted fields applied), `obj.owner = request.user`,
`obj.save()`, and — only when no id was supplied — a new `Content` row
whose order the `OrderField` computes.  An invalid form re-renders and
persists nothing.  `new_item_id`/`new_content_id` are the primary keys
the store hands to the inserted rows. -/
def ContentCreateUpdateView.post (db : DB) (user module_id : Nat)
    (model_name : String) (id : Option Nat) (form : ItemForm)
    (new_item_id new_content_id : Nat) : Http DB :=
  match ContentCreateUpdateView.dispatch db user module_id model_name id with
  | Http.notFound => Http.notFound
  | Http.serverError => Http.serverError
  | Http.ok st =>
    match st.model with
    | none => Http.serverError
    | some k =>
      if form.is_valid then
        match st.obj with
        | some existing =>
          Http.ok { db with
            items := db.items.map (fun it =>
              if it.kind == k && it.id == existing.id then
                { it with title := form.title, payload := form.payload, owner := user }
              else it) }
        | none =>
          let db1 := { db with
            items := db.items ++ [⟨k, new_item_id, user, form.title, form.payload⟩] }
          Http.ok (createContent db1 new_content_id st.module.id k new_item_id)
      else
        Http.ok db

/-! ## `courses/views.py` : ContentDeleteView -/

/-- `ContentDeleteView.post` (views.py lines 258-275): look up the
content row through the ownership chain (404 if absent), resolve
`content.item` (were the generic pointer dangling, `None.delete()`
would raise), delete the concrete item row first and the `Content`
association second, then redirect to the content list of the module,
whose id is returned alongside the new store. -/
def ContentDeleteView.post (db : DB) (user id : Nat) : Http (DB × Nat) :=
  match findContentOwned db user id with
  | none => Http.notFound
  | some content =>
    let module := content.module
    match findItem db.items content.content_type content.object_id with
    | none => Http.serverError
    | some _ =>
      let db1 := { db with
        items := db.items.filter (fun it =>
          !(it.kind == content.content_type && it.id == content.object_id)) }
      let db2 := { db1 with
        contents := db1.contents.filter (fun c => !(c.id == content.id)) }
      Http.ok (db2, module)

/-! ## `courses/views.py` : the reorder endpoints -/

/-- The JSON body `{'saved': 'OK'}` of `render_json_response`. -/
structure JsonAck where
  saved : String
deriving Repr, DecidableEq

/-- One iteration of the reorder loop,
`<Model>.objects.filter(id=id, <owner chain>=request.user).update(order=order)`,
over the list of rows of the model: every matching row's order column is
set.  `PositiveIntegerField` carries a database check constraint
`order >= 0`, so an UPDATE that would write a negative value to a
matching row raises `IntegrityError` (modelled as `Except.error`; when
no row matches, the UPDATE writes nothing and no constraint fires). -/
def orderUpdateStep {α : Type} (owned : α → Bool) (getId : α → Nat)
    (setOrder : α → Int → α) (rows : List α) (id : Nat) (ord : Int) :
    Except (List α) (List α) :=
  if ord < 0 && rows.any (fun r => getId r == id && owned r) then
    Except.error rows
  else
    Except.ok (rows.map (fun r =>
      if getId r == id && owned r then setOrder r ord else r))

/-- `for id, order in self.request_json.items(): ...` — the JSON object
is traversed as a list of (id, order) entries; an `IntegrityError`
propagates and aborts the request, leaving the updates already applied
in place (no surrounding transaction). -/
def orderUpdateLoop {α : Type} (owned : α → Bool) (getId : α → Nat)
    (setOrder : α → Int → α) :
    List α → List (Nat × Int) → Except (List α) (List α)
  | rows, [] => Except.ok rows
  | rows, (id, ord) :: rest =>
    match orderUpdateStep owned getId setOrder rows id ord with
    | Except.ok rows' => orderUpdateLoop owned getId setOrder rows' rest
    | Except.error rows' => Except.error rows'

/-- `ModuleOrderView.post` (views.py lines 307-311): each entry updates
the modules matching `id=id, course__owner=request.user`; after the
loop the view answers `{'saved': 'OK'}`. -/
def ModuleOrderView.post (db : DB) (user : Nat)
    (request_json : List (Nat × Int)) : Except DB (DB × JsonAck) :=
  match orderUpdateLoop (moduleOwned db.courses user) Module.id
      (fun m o => { m with order := o }) db.modules request_json with
  | Except.ok ms => Except.ok ({ db with modules := ms }, ⟨"OK"⟩)
  | Except.error ms => Except.error { db with modules := ms }

/-- `ContentOrderView.post` (views.py lines 319-324): the same loop for
content rows, matching `id=id, module__course__owner=request.user`. -/
def ContentOrderView.post (db : DB) (user : Nat)
    (request_json : List (Nat × Int)) : Except DB (DB × JsonAck) :=
  match orderUpdateLoop (contentOwned db.courses db.modules user) Content.id
      (fun c o => { c with order := o }) db.contents request_json with
  | Except.ok cs => Except.ok ({ db with contents := cs }, ⟨"OK"⟩)
  | Except.error cs => Except.error { db with contents := cs }

/-! ## Listings -/

/-- `course.modules.all()`: the modules of a course, returned in the
`Meta.ordering = ['order']` order (ascending by position). -/
def listModules (db : DB) (course : Nat) : List Module :=
  (db.modules.filter (fun m => m.course == course)).insertionSort
    (fun a b => a.order ≤ b.order)

/-- `module.contents.all()` under `Meta.ordering = ['order']`. -/
def listContents (db : DB) (module : Nat) : List Content :=
  (db.contents.filter (fun c => c.module == module)).insertionSort
    (fun a b => a.order ≤ b.order)

/-- The store an `Except`-returning endpoint leaves behind, whichever
way it exits. -/
def exceptDB : Except DB (DB × JsonAck) → DB
  | Except.ok (db, _) => db
  | Except.error db => db

/-- The store an `Http`-returning endpoint leaves behind: unchanged on
a 404 or a crash (`fallback`), the response's store otherwise. -/
def httpDB (fallback : DB) : Http DB → DB
  | Http.ok db => db
  | _ => fallback

/-! ## Derived definitions used by the statements -/

/-- The per-record effect of a whole reorder request: each entry in
turn sets the record's order when the record matches the entry's id and
the ownership filter. -/
def applyEntries {α : Type} (owned : α → Bool) (getId : α → Nat)
    (setOrder : α → Int → α) (entries : List (Nat × Int)) (r : α) : α :=
  entries.foldl (fun r e => if getId r == e.1 && owned r then setOrder r e.2 else r) r

/-- The row list either exit of the reorder loop leaves behind. -/
def exceptRows {α : Type} : Except (List α) (List α) → List α
  | Except.ok rows => rows
  | Except.error rows => rows

/-- `N` serialized creations of modules in one course, none with an
explicit position: the `n`-th gets primary key `ids n` and text fields
`titles n` / `descriptions n`. -/
def createModulesN (db : DB) (course : Nat) (ids : Nat → Nat)
    (titles descriptions : Nat → String) : Nat → DB
  | 0 => db
  | n + 1 =>
    createModule (createModulesN db course ids titles descriptions n)
      (ids n) course (titles n) (descriptions n)

/-- The invariant `PositiveIntegerField` maintains: every persisted
position is non-negative. -/
def ordersNonneg (db : DB) : Prop :=
  (∀ m ∈ db.modules, 0 ≤ m.order) ∧ (∀ c ∈ db.contents, 0 ≤ c.order)

instance (db : DB) : Decidable (ordersNonneg db) := by
  unfold ordersNonneg; infer_instance

/-! ## Concrete fixtures for the witnesses and counterexamples -/

def wCourse : Course := ⟨1, 7, 1, "c", "c-slug", "o"⟩

def wCourse2 : Course := ⟨2, 8, 1, "d", "d-slug", "o"⟩

def wModule0 : Module := ⟨10, 1, "m0", "", 0⟩

def wModule1 : Module := ⟨11, 1, "m1", "", 1⟩

def wModule2 : Module := ⟨12, 1, "m2", "", 2⟩

def wDB : DB := ⟨[wCourse, wCourse2], [wModule0, wModule1, wModule2], [], []⟩

def wContent : Content := ⟨20, 10, Kind.text, 5, 0⟩

def wItem : Item := ⟨Kind.text, 5, 7, "t", "p"⟩

def wDBc : DB := ⟨[wCourse], [wModule0], [wContent], [wItem]⟩

/-! ## Lemmas about the maximum computed by `latestOrderVal` -/

theorem foldl_max_init_le {α : Type} (order : α → Int) (l : List α) (a : Int) :
    a ≤ l.foldl (fun acc x => max acc (order x)) a := by
  induction l generalizing a with
  | nil => exact le_refl a
  | cons z zs ih =>
    simp only [List.foldl_cons]
    exact le_trans (le_max_left a (order z)) (ih (max a (order z)))

theorem le_foldl_max {α : Type} (order : α → Int) (l : List α) (a : Int) :
    ∀ x ∈ l, order x ≤ l.foldl (fun acc y => max acc (order y)) a := by
  induction l generalizing a with
  | nil => intro x hx; cases hx
  | cons z zs ih =>
    intro x hx
    simp only [List.foldl_cons]
    rcases List.mem_cons.mp hx with rfl | hx
    · exact le_trans (le_max_right a (order x))
        (foldl_max_init_le order zs (max a (order x)))
    · exact ih (max a (order z)) x hx

theorem foldl_max_attained {α : Type} (order : α → Int) (l : List α) (a : Int) :
    l.foldl (fun acc x => max acc (order x)) a = a ∨
      ∃ x ∈ l, l.foldl (fun acc x => max acc (order x)) a = order x := by
  induction l generalizing a with
  | nil => left; rfl
  | cons z zs ih =>
    simp only [List.foldl_cons]
    rcases ih (max a (order z)) with h | ⟨y, hy, h⟩
    · rcases max_choice a (order z) with hm | hm
      · left; rw [h, hm]
      · right; exact ⟨z, List.mem_cons_self z zs, by rw [h, hm]⟩
    · right; exact ⟨y, List.mem_cons_of_mem z hy, h⟩

theorem latestOrderVal_eq_none {α : Type} (order : α → Int) (l : List α)
    (h : latestOrderVal order l = none) : l = [] := by
  cases l with
  | nil => rfl
  | cons r rs => simp [latestOrderVal] at h

theorem latestOrderVal_spec {α : Type} (order : α → Int) (l : List α) (m : Int)
    (h : latestOrderVal order l = some m) :
    (∃ x ∈ l, order x = m) ∧ ∀ x ∈ l, order x ≤ m := by
  cases l with
  | nil => simp [latestOrderVal] at h
  | cons r rs =>
    have hm : rs.foldl (fun acc x => max acc (order x)) (order r) = m := by
      simpa [latestOrderVal] using h
    constructor
    · rcases foldl_max_attained order rs (order r) with h1 | ⟨x, hx, h1⟩
      · exact ⟨r, List.mem_cons_self r rs, by rw [← hm, h1]⟩
      · exact ⟨x, List.mem_cons_of_mem r hx, by rw [← hm, h1]⟩
    · intro x hx
      rcases List.mem_cons.mp hx with rfl | hx
      · rw [← hm]; exact foldl_max_init_le order rs (order x)
      · rw [← hm]; exact le_foldl_max order rs (order r) x hx

/-- The value `pre_save` computes for an unset position attribute:
`0` on an empty scope queryset, otherwise one more than the greatest
order in the queryset (which it strictly exceeds). -/
theorem pre_save_unset_spec {α : Type} (field : OrderField) (objects_all : List α)
    (fieldVal : α → String → Nat) (order : α → Int) (instVal : String → Nat) :
    (scopeQS field objects_all fieldVal instVal = [] →
      field.pre_save objects_all fieldVal order instVal none = 0) ∧
    (scopeQS field objects_all fieldVal instVal ≠ [] →
      (∃ r ∈ scopeQS field objects_all fieldVal instVal,
        field.pre_save objects_all fieldVal order instVal none = order r + 1) ∧
      ∀ r ∈ scopeQS field objects_all fieldVal instVal,
        order r < field.pre_save objects_all fieldVal order instVal none) := by
  constructor
  · intro h
    unfold OrderField.pre_save
    rw [h]
    rfl
  · intro h
    cases hl : latestOrderVal order (scopeQS field objects_all fieldVal instVal) with
    | none => exact absurd (latestOrderVal_eq_none order _ hl) h
    | some m =>
      obtain ⟨⟨x, hx, hxm⟩, hb⟩ := latestOrderVal_spec order _ m hl
      have hv : field.pre_save objects_all fieldVal order instVal none = m + 1 := by
        simp only [OrderField.pre_save]
        rw [hl]
      constructor
      · exact ⟨x, hx, by rw [hv, hxm]⟩
      · intro r hr
        rw [hv]
        exact lt_of_le_of_lt (hb r hr) (lt_add_one m)

/-- The scope queryset of a new `Module` in course `course`: the
modules of that course. -/
theorem scopeQS_module (modules : List Module) (course : Nat) :
    scopeQS Module.order_field modules Module.fieldVal
      (fun f => if f = "course" then course else 0)
      = modules.filter (fun m => m.course == course) := by
  simp [scopeQS, Module.order_field, for_fields_truthy, Module.fieldVal]

/-- The scope queryset of a new `Content` in module `mod`: the content
rows of that module. -/
theorem scopeQS_content (contents : List Content) (mod : Nat) :
    scopeQS Content.order_field contents Content.fieldVal
      (fun f => if f = "module" then mod else 0)
      = contents.filter (fun c => c.module == mod) := by
  simp [scopeQS, Content.order_field, for_fields_truthy, Content.fieldVal]

/-- C1: for every record saved for the first time with its position
attribute unset, `OrderField.pre_save` assigns it (max position among
existing records with the same scope-key values) + 1, and 0 when no
such sibling exists, and the row is written with exactly that value —
shown for both uses of the field: a `Module` (scope `['course']`) and a
`Content` (scope `['module']`). -/
theorem C1_first_save_assigns_next_position (db : DB) (id course : Nat)
    (title description : String) (cid mod oid : Nat) (k : Kind) :
    (∃ v, (createModule db id course title description).modules
        = db.modules ++ [⟨id, course, title, description, v⟩] ∧
      (db.modules.filter (fun m => m.course == course) = [] → v = 0) ∧
      (db.modules.filter (fun m => m.course == course) ≠ [] →
        (∃ m ∈ db.modules.filter (fun m => m.course == course), v = m.order + 1) ∧
        ∀ m ∈ db.modules.filter (fun m => m.course == course), m.order < v)) ∧
    (∃ v, (createContent db cid mod k oid).contents
        = db.contents ++ [⟨cid, mod, k, oid, v⟩] ∧
      (db.contents.filter (fun c => c.module == mod) = [] → v = 0) ∧
      (db.contents.filter (fun c => c.module == mod) ≠ [] →
        (∃ c ∈ db.contents.filter (fun c => c.module == mod), v = c.order + 1) ∧
        ∀ c ∈ db.contents.filter (fun c => c.module == mod), c.order < v)) := by
  constructor
  · have h := pre_save_unset_spec Module.order_field db.modules Module.fieldVal
      Module.order (fun f => if f = "course" then course else 0)
    rw [scopeQS_module] at h
    exact ⟨_, rfl, h.1, h.2⟩
  · have h := pre_save_unset_spec Content.order_field db.contents Content.fieldVal
      Content.order (fun f => if f = "module" then mod else 0)
    rw [scopeQS_content] at h
    exact ⟨_, rfl, h.1, h.2⟩

/-- C5: a record saved with an explicitly supplied position value —
including 0 — keeps it: `pre_save` returns the value unmodified for any
field configuration, and both `Module.save` and `Content.save` persist
the row with exactly that position. -/
theorem C5_explicit_position_kept {α : Type} (field : OrderField)
    (objects_all : List α) (fieldVal : α → String → Nat) (order : α → Int)
    (instVal : String → Nat) (v : Int) (db : DB) (id course : Nat)
    (title description : String) (cid mod oid : Nat) (k : Kind) :
    field.pre_save objects_all fieldVal order instVal (some v) = v ∧
    (Module.save db id course title description (some v)).modules
      = db.modules ++ [⟨id, course, title, description, v⟩] ∧
    (Content.save db cid mod k oid (some v)).contents
      = db.contents ++ [⟨cid, mod, k, oid, v⟩] :=
  ⟨rfl, rfl, rfl⟩

/-- C7: with an absent (`None`) or empty scope-key list, the queryset
`pre_save` maximises over is all records of the model (python
truthiness makes both cases take the unfiltered branch), so the
ordering is global: the computed value is 0 exactly on an empty table
and otherwise exceeds every record's position, being one more than some
record's. -/
theorem C7_empty_scope_is_global {α : Type} (field : OrderField)
    (h : field.for_fields = none ∨ field.for_fields = some [])
    (objects_all : List α) (fieldVal : α → String → Nat) (order : α → Int)
    (instVal : String → Nat) :
    (objects_all = [] →
      field.pre_save objects_all fieldVal order instVal none = 0) ∧
    (objects_all ≠ [] →
      (∃ r ∈ objects_all,
        field.pre_save objects_all fieldVal order instVal none = order r + 1) ∧
      ∀ r ∈ objects_all,
        order r < field.pre_save objects_all fieldVal order instVal none) := by
  have hq : scopeQS field objects_all fieldVal instVal = objects_all := by
    rcases h with h | h <;> simp [scopeQS, for_fields_truthy, h]
  have hs := pre_save_unset_spec field objects_all fieldVal order instVal
  rw [hq] at hs
  exact hs

/-- Concrete instantiation of C7: an `OrderField` configured with an
absent scope-key list, over a two-row table. -/
theorem C7_empty_scope_witness :
    ([wModule0, wModule2] = ([] : List Module) →
      OrderField.pre_save ⟨none⟩ [wModule0, wModule2] Module.fieldVal Module.order
        (fun _ => 0) none = 0) ∧
    ([wModule0, wModule2] ≠ ([] : List Module) →
      (∃ r ∈ [wModule0, wModule2],
        OrderField.pre_save ⟨none⟩ [wModule0, wModule2] Module.fieldVal Module.order
          (fun _ => 0) none = r.order + 1) ∧
      ∀ r ∈ [wModule0, wModule2],
        r.order < OrderField.pre_save ⟨none⟩ [wModule0, wModule2] Module.fieldVal
          Module.order (fun _ => 0) none) :=
  C7_empty_scope_is_global ⟨none⟩ (Or.inl rfl) [wModule0, wModule2] Module.fieldVal
    Module.order (fun _ => 0)

/-! ## Sequential creation (C6) -/

theorem createModule_modules (db : DB) (id course : Nat) (t d : String) :
    (createModule db id course t d).modules
      = db.modules ++ [⟨id, course, t, d,
          Module.order_field.pre_save db.modules Module.fieldVal Module.order
            (fun f => if f = "course" then course else 0) none⟩] := rfl

theorem module_pre_save_eq (modules : List Module) (course : Nat) :
    Module.order_field.pre_save modules Module.fieldVal Module.order
      (fun f => if f = "course" then course else 0) none
      = match latestOrderVal Module.order (modules.filter (fun m => m.course == course)) with
        | some last_order => last_order + 1
        | none => 0 := by
  simp only [OrderField.pre_save]
  rw [scopeQS_module]

theorem createModule_empty_scope (db : DB) (id course : Nat) (t d : String)
    (h : db.modules.filter (fun m => m.course == course) = []) :
    (createModule db id course t d).modules = db.modules ++ [⟨id, course, t, d, 0⟩] := by
  rw [createModule_modules, module_pre_save_eq, h]
  rfl

theorem latestOrderVal_append_single {α : Type} (order : α → Int) (l : List α) (x : α) :
    latestOrderVal order (l ++ [x]) =
      some (match latestOrderVal order l with
            | some m => max m (order x)
            | none => order x) := by
  cases l with
  | nil => rfl
  | cons r rs => simp [latestOrderVal, List.foldl_append]

theorem latestOrderVal_range_map {α : Type} (order : α → Int) (g : Nat → α)
    (hg : ∀ i, order (g i) = (i : Int)) :
    ∀ k, latestOrderVal order ((List.range (k + 1)).map g) = some (k : Int) := by
  intro k
  induction k with
  | zero => simp [List.range_succ, latestOrderVal, hg]
  | succ k ih =>
    rw [List.range_succ, List.map_append]
    simp only [List.map_cons, List.map_nil]
    rw [latestOrderVal_append_single, ih]
    simp only [hg]
    have : max (k : Int) ((k + 1 : Nat) : Int) = ((k + 1 : Nat) : Int) := by
      apply max_eq_right
      exact_mod_cast Nat.le_succ k
    rw [this]

theorem createModulesN_modules (db : DB) (course : Nat) (ids : Nat → Nat)
    (titles descriptions : Nat → String)
    (h : db.modules.filter (fun m => m.course == course) = []) :
    ∀ n, (createModulesN db course ids titles descriptions n).modules
      = db.modules ++ (List.range n).map
          (fun i => ⟨ids i, course, titles i, descriptions i, (i : Int)⟩) := by
  intro n
  induction n with
  | zero => simp [createModulesN]
  | succ n ih =>
    have hfilter :
        (createModulesN db course ids titles descriptions n).modules.filter
            (fun m => m.course == course)
          = (List.range n).map
              (fun i => ⟨ids i, course, titles i, descriptions i, (i : Int)⟩) := by
      rw [ih, List.filter_append, h, List.nil_append, List.filter_eq_self]
      intro a ha
      obtain ⟨i, _, rfl⟩ := List.mem_map.mp ha
      simp
    show (createModule (createModulesN db course ids titles descriptions n)
        (ids n) course (titles n) (descriptions n)).modules = _
    rw [createModule_modules, module_pre_save_eq, hfilter, ih]
    cases n with
    | zero => simp [latestOrderVal, List.range_succ]
    | succ k =>
      rw [latestOrderVal_range_map Module.order _ (fun i => rfl) k]
      have hc : ((k : Int) + 1) = ((k + 1 : Nat) : Int) := by push_cast; ring
      have hm : (match some (k : Int) with
          | some last_order => last_order + 1
          | none => 0) = (k : Int) + 1 := rfl
      conv_rhs => rw [List.range_succ, List.map_append]
      rw [hm, hc, List.append_assoc]
      simp only [List.map_cons, List.map_nil]

/-- C6: serialized creation of `N` records in one scope (a course with
no prior modules) assigns positions `0, 1, …, N-1` in creation order
with no gaps, and creation in disjoint scopes is independent: the first
module created in empty course `a` and the first created afterwards in
empty course `b ≠ a` both receive position 0. -/
theorem C6_serialized_creation_sequential (db : DB) (course : Nat)
    (ids : Nat → Nat) (titles descriptions : Nat → String) (n : Nat)
    (h : db.modules.filter (fun m => m.course == course) = [])
    (a b idA idB : Nat) (tA dA tB dB : String)
    (hA : db.modules.filter (fun m => m.course == a) = [])
    (hB : db.modules.filter (fun m => m.course == b) = [])
    (hab : a ≠ b) :
    (createModulesN db course ids titles descriptions n).modules
      = db.modules ++ (List.range n).map
          (fun i => ⟨ids i, course, titles i, descriptions i, (i : Int)⟩) ∧
    (createModule db idA a tA dA).modules = db.modules ++ [⟨idA, a, tA, dA, 0⟩] ∧
    (createModule (createModule db idA a tA dA) idB b tB dB).modules
      = (createModule db idA a tA dA).modules ++ [⟨idB, b, tB, dB, 0⟩] := by
  have hAfirst := createModule_empty_scope db idA a tA dA hA
  have h2 : (createModule db idA a tA dA).modules.filter (fun m => m.course == b) = [] := by
    rw [hAfirst, List.filter_append, hB]
    simp [hab]
  exact ⟨createModulesN_modules db course ids titles descriptions h n, hAfirst,
    createModule_empty_scope _ idB b tB dB h2⟩

/-- Concrete instantiation of C6: two creations in empty course 3 give
positions 0 and 1; first creations in empty courses 4 and 5 both give
position 0. -/
theorem C6_witness :
    (createModulesN wDB 3 (fun i => 30 + i) (fun _ => "t") (fun _ => "d") 2).modules
      = wDB.modules ++ (List.range 2).map (fun i => ⟨30 + i, 3, "t", "d", (i : Int)⟩) ∧
    (createModule wDB 40 4 "t" "d").modules = wDB.modules ++ [⟨40, 4, "t", "d", 0⟩] ∧
    (createModule (createModule wDB 40 4 "t" "d") 41 5 "t" "d").modules
      = (createModule wDB 40 4 "t" "d").modules ++ [⟨41, 5, "t", "d", 0⟩] :=
  C6_serialized_creation_sequential wDB 3 (fun i => 30 + i) (fun _ => "t") (fun _ => "d") 2
    (by decide) 4 5 40 41 "t" "d" "t" "d" (by decide) (by decide) (by decide)

/-! ## The reorder loop -/

theorem applyEntries_nil {α : Type} (owned : α → Bool) (getId : α → Nat)
    (setOrder : α → Int → α) (r : α) :
    applyEntries owned getId setOrder [] r = r := rfl

theorem applyEntries_cons {α : Type} (owned : α → Bool) (getId : α → Nat)
    (setOrder : α → Int → α) (e : Nat × Int) (rest : List (Nat × Int)) (r : α) :
    applyEntries owned getId setOrder (e :: rest) r
      = applyEntries owned getId setOrder rest
          (if getId r == e.1 && owned r then setOrder r e.2 else r) := rfl

theorem applyEntries_not_owned {α : Type} (owned : α → Bool) (getId : α → Nat)
    (setOrder : α → Int → α) (entries : List (Nat × Int)) (r : α)
    (h : owned r = false) :
    applyEntries owned getId setOrder entries r = r := by
  induction entries with
  | nil => rfl
  | cons e rest ih =>
    rw [applyEntries_cons, if_neg]
    · exact ih
    · simp [h]

theorem applyEntries_not_named {α : Type} (owned : α → Bool) (getId : α → Nat)
    (setOrder : α → Int → α) (entries : List (Nat × Int)) (r : α) :
    (∀ e ∈ entries, getId r ≠ e.1) →
    applyEntries owned getId setOrder entries r = r := by
  induction entries with
  | nil => intro _; rfl
  | cons e rest ih =>
    intro h
    rw [applyEntries_cons, if_neg]
    · exact ih (fun e' he' => h e' (List.mem_cons_of_mem e he'))
    · simp [h e (List.mem_cons_self e rest)]

theorem applyEntries_named {α : Type} (owned : α → Bool) (getId : α → Nat)
    (setOrder : α → Int → α)
    (hid : ∀ (r : α) o, getId (setOrder r o) = getId r)
    (entries : List (Nat × Int)) (r : α) (i : Nat) (o : Int) :
    (entries.map Prod.fst).Nodup → (i, o) ∈ entries → getId r = i → owned r = true →
    applyEntries owned getId setOrder entries r = setOrder r o := by
  induction entries with
  | nil => intro _ hmem; cases hmem
  | cons e rest ih =>
    intro hnd hmem hgid hown
    have hnd' : (rest.map Prod.fst).Nodup := (List.nodup_cons.mp (by simpa using hnd)).2
    have hhead : e.1 ∉ rest.map Prod.fst := (List.nodup_cons.mp (by simpa using hnd)).1
    rcases List.mem_cons.mp hmem with heq | hmem'
    · subst heq
      rw [applyEntries_cons, if_pos (by simp [hgid, hown])]
      refine applyEntries_not_named owned getId setOrder rest (setOrder r o) ?_
      intro e' he' hcontra
      rw [hid, hgid] at hcontra
      apply hhead
      rw [hcontra]
      exact List.mem_map.mpr ⟨e', he', rfl⟩
    · have hi_mem : i ∈ rest.map Prod.fst := List.mem_map_of_mem Prod.fst hmem'
      have hne : getId r ≠ e.1 := by
        intro hcontra
        apply hhead
        rw [← hcontra, hgid]
        exact hi_mem
      rw [applyEntries_cons, if_neg (by simp [hne])]
      exact ih hnd' hmem' hgid hown

theorem orderUpdateStep_cond_false {α : Type} (owned : α → Bool) (getId : α → Nat)
    (setOrder : α → Int → α) (rows : List α) (id : Nat) (ord : Int)
    (h : (decide (ord < 0) && rows.any (fun r => getId r == id && owned r)) = false) :
    orderUpdateStep owned getId setOrder rows id ord
      = Except.ok (rows.map (fun r =>
          if getId r == id && owned r then setOrder r ord else r)) := by
  unfold orderUpdateStep
  simp [h]

theorem orderUpdateLoop_ok {α : Type} (owned : α → Bool) (getId : α → Nat)
    (setOrder : α → Int → α)
    (hid : ∀ (r : α) o, getId (setOrder r o) = getId r)
    (hown : ∀ (r : α) o, owned (setOrder r o) = owned r)
    (entries : List (Nat × Int)) :
    ∀ rows : List α,
    (∀ e ∈ entries, e.2 < 0 →
      rows.any (fun r => getId r == e.1 && owned r) = false) →
    orderUpdateLoop owned getId setOrder rows entries
      = Except.ok (rows.map (applyEntries owned getId setOrder entries)) := by
  induction entries with
  | nil =>
    intro rows _
    show Except.ok rows = Except.ok (rows.map (applyEntries owned getId setOrder []))
    rw [show rows.map (applyEntries owned getId setOrder []) = rows.map id from rfl,
      List.map_id]
  | cons e rest ih =>
    intro rows hsafe
    have hcond : (decide (e.2 < 0) && rows.any (fun r => getId r == e.1 && owned r)) = false := by
      by_cases hneg : e.2 < 0
      · rw [hsafe e (List.mem_cons_self e rest) hneg, Bool.and_false]
      · simp [hneg]
    simp only [orderUpdateLoop]
    rw [orderUpdateStep_cond_false owned getId setOrder rows e.1 e.2 hcond]
    have hupd : ∀ (e' : Nat × Int) (r : α),
        ((getId (if getId r == e.1 && owned r then setOrder r e.2 else r) == e'.1)
          && owned (if getId r == e.1 && owned r then setOrder r e.2 else r))
        = (getId r == e'.1 && owned r) := by
      intro e' r
      by_cases hc : (getId r == e.1 && owned r) = true
      · rw [if_pos hc, hid, hown]
      · rw [if_neg hc]
    have hsafe' : ∀ e' ∈ rest, e'.2 < 0 →
        (rows.map (fun r => if getId r == e.1 && owned r then setOrder r e.2 else r)).any
          (fun r => getId r == e'.1 && owned r) = false := by
      intro e' he' hneg
      rw [List.any_map]
      have := hsafe e' (List.mem_cons_of_mem e he') hneg
      rw [List.any_eq_false] at this ⊢
      intro r hr
      have hpt := hupd e' r
      simp only [Function.comp]
      rw [hpt]
      exact this r hr
    show orderUpdateLoop owned getId setOrder
        (rows.map (fun r => if getId r == e.1 && owned r then setOrder r e.2 else r)) rest
      = Except.ok (rows.map (applyEntries owned getId setOrder (e :: rest)))
    rw [ih _ hsafe', List.map_map]
    congr 1

theorem orderUpdateLoop_nonneg {α : Type} (owned : α → Bool) (getId : α → Nat)
    (setOrder : α → Int → α) (order : α → Int)
    (hset : ∀ (r : α) o, order (setOrder r o) = o)
    (entries : List (Nat × Int)) :
    ∀ rows : List α, (∀ r ∈ rows, 0 ≤ order r) →
    ∀ r ∈ exceptRows (orderUpdateLoop owned getId setOrder rows entries), 0 ≤ order r := by
  induction entries with
  | nil =>
    intro rows h
    simpa [orderUpdateLoop, exceptRows] using h
  | cons e rest ih =>
    intro rows h
    simp only [orderUpdateLoop]
    cases hstep : orderUpdateStep owned getId setOrder rows e.1 e.2 with
    | error rows' =>
      have hr : rows' = rows := by
        unfold orderUpdateStep at hstep
        split at hstep
        · exact (Except.error.inj hstep).symm
        · cases hstep
      intro r hr'
      exact h r (by simpa [exceptRows, hr] using hr')
    | ok rows' =>
      apply ih rows'
      unfold orderUpdateStep at hstep
      split at hstep
      · cases hstep
      · rename_i hcondFalse
        have hrows' : rows' = rows.map (fun r =>
            if getId r == e.1 && owned r then setOrder r e.2 else r) :=
          (Except.ok.inj hstep).symm
        subst hrows'
        intro r hr
        obtain ⟨r0, hr0, rfl⟩ := List.mem_map.mp hr
        by_cases hc : (getId r0 == e.1 && owned r0) = true
        · rw [if_pos hc, hset]
          by_contra hneg
          push_neg at hneg
          apply hcondFalse
          have hany : rows.any (fun r => getId r == e.1 && owned r) = true :=
            List.any_eq_true.mpr ⟨r0, hr0, hc⟩
          simp [hany, hneg]
        · rw [if_neg hc]
          exact h r0 hr0

theorem ModuleOrderView_post_ok (db : DB) (user : Nat) (entries : List (Nat × Int))
    (ms : List Module)
    (h : orderUpdateLoop (moduleOwned db.courses user) Module.id
        (fun m o => { m with order := o }) db.modules entries = Except.ok ms) :
    ModuleOrderView.post db user entries
      = Except.ok ({ db with modules := ms }, ⟨"OK"⟩) := by
  unfold ModuleOrderView.post
  rw [h]

theorem ContentOrderView_post_ok (db : DB) (user : Nat) (entries : List (Nat × Int))
    (cs : List Content)
    (h : orderUpdateLoop (contentOwned db.courses db.modules user) Content.id
        (fun c o => { c with order := o }) db.contents entries = Except.ok cs) :
    ContentOrderView.post db user entries
      = Except.ok ({ db with contents := cs }, ⟨"OK"⟩) := by
  unfold ContentOrderView.post
  rw [h]

theorem listModules_sorted (db : DB) (course : Nat) :
    (listModules db course).Sorted (fun a b => a.order ≤ b.order) := by
  haveI : IsTotal Module (fun a b => a.order ≤ b.order) :=
    ⟨fun a b => le_total a.order b.order⟩
  haveI : IsTrans Module (fun a b => a.order ≤ b.order) := ⟨fun a b c => le_trans⟩
  exact List.sorted_insertionSort _ _

/-- C3: a reorder entry whose id does not name a record owned (through
the ownership chain) by the requesting user is silently skipped: the
record at each store index stays exactly as it was whenever it is not
owned by the caller or not named by any entry, and the view still
answers `{'saved': 'OK'}` once all entries are processed — for both
`ModuleOrderView` and `ContentOrderView`.  The side conditions only
rule out the database rejecting a negative position written to an owned
record. -/
theorem C3_unowned_entries_silently_skipped (db : DB) (user : Nat)
    (entries centries : List (Nat × Int))
    (hsafe : ∀ e ∈ entries, e.2 < 0 →
      db.modules.any (fun m => m.id == e.1 && moduleOwned db.courses user m) = false)
    (hsafec : ∀ e ∈ centries, e.2 < 0 →
      db.contents.any (fun c =>
        c.id == e.1 && contentOwned db.courses db.modules user c) = false) :
    (∃ ms, ModuleOrderView.post db user entries
        = Except.ok ({ db with modules := ms }, ⟨"OK"⟩) ∧
      ∀ (i : Nat) (m : Module), db.modules[i]? = some m →
        (moduleOwned db.courses user m = false ∨ ∀ e ∈ entries, m.id ≠ e.1) →
        ms[i]? = some m) ∧
    (∃ cs, ContentOrderView.post db user centries
        = Except.ok ({ db with contents := cs }, ⟨"OK"⟩) ∧
      ∀ (i : Nat) (c : Content), db.contents[i]? = some c →
        (contentOwned db.courses db.modules user c = false ∨ ∀ e ∈ centries, c.id ≠ e.1) →
        cs[i]? = some c) := by
  constructor
  · have hloop := orderUpdateLoop_ok (moduleOwned db.courses user) Module.id
      (fun m o => { m with order := o }) (fun r o => rfl) (fun r o => rfl)
      entries db.modules hsafe
    refine ⟨_, ModuleOrderView_post_ok db user entries _ hloop, ?_⟩
    intro i m hm hcond
    rw [List.getElem?_map, hm, Option.map_some']
    rcases hcond with h1 | h1
    · rw [applyEntries_not_owned _ _ _ _ _ h1]
    · rw [applyEntries_not_named _ _ _ _ _ h1]
  · have hloop := orderUpdateLoop_ok (contentOwned db.courses db.modules user) Content.id
      (fun c o => { c with order := o }) (fun r o => rfl) (fun r o => rfl)
      centries db.contents hsafec
    refine ⟨_, ContentOrderView_post_ok db user centries _ hloop, ?_⟩
    intro i c hc hcond
    rw [List.getElem?_map, hc, Option.map_some']
    rcases hcond with h1 | h1
    · rw [applyEntries_not_owned _ _ _ _ _ h1]
    · rw [applyEntries_not_named _ _ _ _ _ h1]

/-- Concrete instantiation of C3: user 8 owns none of the modules of
course 1 (owned by user 7), so both reorder requests change nothing and
still answer `{'saved': 'OK'}`. -/
theorem C3_witness :
    (∃ ms, ModuleOrderView.post wDB 8 [(12, 0), (10, 2)]
        = Except.ok (DB.mk wDB.courses ms wDB.contents wDB.items, ⟨"OK"⟩) ∧
      ∀ (i : Nat) (m : Module), wDB.modules[i]? = some m →
        (moduleOwned wDB.courses 8 m = false ∨ ∀ e ∈ ([(12, 0), (10, 2)] : List (Nat × Int)), m.id ≠ e.1) →
        ms[i]? = some m) ∧
    (∃ cs, ContentOrderView.post wDB 8 [(20, 1)]
        = Except.ok (DB.mk wDB.courses wDB.modules cs wDB.items, ⟨"OK"⟩) ∧
      ∀ (i : Nat) (c : Content), wDB.contents[i]? = some c →
        (contentOwned wDB.courses wDB.modules 8 c = false ∨ ∀ e ∈ ([(20, 1)] : List (Nat × Int)), c.id ≠ e.1) →
        cs[i]? = some c) := by
  exact C3_unowned_entries_silently_skipped wDB 8 [(12, 0), (10, 2)] [(20, 1)]
    (by decide) (by decide)

/-- C4: a reorder request each of whose entries names a record owned by
the caller sets exactly the named records' positions to the supplied
values (all other fields untouched), leaves every record not named
completely unchanged (same store index, same row) and touches no other
table, and the module listing afterwards is ascending by position. -/
theorem C4_owned_reorder_sets_exact_positions (db : DB) (user : Nat)
    (entries : List (Nat × Int))
    (hkeys : (entries.map Prod.fst).Nodup)
    (hpos : ∀ e ∈ entries, 0 ≤ e.2)
    (hown : ∀ e ∈ entries, ∃ m ∈ db.modules,
      m.id = e.1 ∧ moduleOwned db.courses user m = true)
    (hids : (db.modules.map Module.id).Nodup) :
    ∃ ms, ModuleOrderView.post db user entries
        = Except.ok ({ db with modules := ms }, ⟨"OK"⟩) ∧
      ms.length = db.modules.length ∧
      (∀ (i : Nat) (m : Module), db.modules[i]? = some m → (∀ e ∈ entries, m.id ≠ e.1) →
        ms[i]? = some m) ∧
      (∀ (i : Nat) (m : Module) (e : Nat × Int), db.modules[i]? = some m → e ∈ entries → m.id = e.1 →
        ms[i]? = some { m with order := e.2 }) ∧
      (∀ course, (listModules { db with modules := ms } course).Sorted
        (fun a b => a.order ≤ b.order)) := by
  have hsafe : ∀ e ∈ entries, e.2 < 0 →
      db.modules.any (fun m => m.id == e.1 && moduleOwned db.courses user m) = false := by
    intro e he hneg
    exact absurd (hpos e he) (not_le.mpr hneg)
  have hloop := orderUpdateLoop_ok (moduleOwned db.courses user) Module.id
    (fun m o => { m with order := o }) (fun r o => rfl) (fun r o => rfl)
    entries db.modules hsafe
  refine ⟨_, ModuleOrderView_post_ok db user entries _ hloop, List.length_map _ _, ?_, ?_, ?_⟩
  · intro i m hm hnamed
    rw [List.getElem?_map, hm, Option.map_some']
    rw [applyEntries_not_named _ _ _ _ _ hnamed]
  · intro i m e hm he hid_eq
    have hmem : m ∈ db.modules := List.getElem?_mem hm
    obtain ⟨m', hm'db, hid', hown'⟩ := hown e he
    have hmeq : m = m' :=
      List.inj_on_of_nodup_map hids hmem hm'db (by rw [hid_eq, hid'])
    rw [List.getElem?_map, hm, Option.map_some']
    obtain ⟨eid, eord⟩ := e
    rw [applyEntries_named (moduleOwned db.courses user) Module.id
      (fun m o => { m with order := o }) (fun r o => rfl) entries m eid eord
      hkeys he hid_eq (hmeq ▸ hown')]
  · intro course
    exact listModules_sorted _ course

/-- Concrete instantiation of C4, the spec's scenario: modules at
positions [0, 1, 2]; the request maps mod2 to 0 and mod0 to 2; the
subsequent listing is [mod2, mod1, mod0] with mod1 untouched at 1. -/
theorem C4_witness :
    (∃ ms, ModuleOrderView.post wDB 7 [(12, 0), (10, 2)]
        = Except.ok (DB.mk wDB.courses ms wDB.contents wDB.items, ⟨"OK"⟩) ∧
      ms.length = wDB.modules.length ∧
      (∀ (i : Nat) (m : Module), wDB.modules[i]? = some m → (∀ e ∈ ([(12, 0), (10, 2)] : List (Nat × Int)), m.id ≠ e.1) →
        ms[i]? = some m) ∧
      (∀ (i : Nat) (m : Module) (e : Nat × Int), wDB.modules[i]? = some m → e ∈ [(12, 0), (10, 2)] → m.id = e.1 →
        ms[i]? = some { m with order := e.2 }) ∧
      (∀ course, (listModules (DB.mk wDB.courses ms wDB.contents wDB.items) course).Sorted
        (fun a b => a.order ≤ b.order))) ∧
    listModules (exceptDB (ModuleOrderView.post wDB 7 [(12, 0), (10, 2)])) 1
      = [⟨12, 1, "m2", "", 0⟩, wModule1, ⟨10, 1, "m0", "", 2⟩] := by
  exact ⟨C4_owned_reorder_sets_exact_positions wDB 7 [(12, 0), (10, 2)]
    (by decide) (by decide) (by decide) (by decide), by decide⟩

/-! ## Non-negativity of positions (C9) -/

theorem scopeQS_subset {α : Type} (field : OrderField) (objects_all : List α)
    (fieldVal : α → String → Nat) (instVal : String → Nat) :
    ∀ r ∈ scopeQS field objects_all fieldVal instVal, r ∈ objects_all := by
  intro r hr
  unfold scopeQS at hr
  split at hr
  · exact List.mem_of_mem_filter hr
  · exact hr

theorem pre_save_unset_nonneg {α : Type} (field : OrderField) (objects_all : List α)
    (fieldVal : α → String → Nat) (order : α → Int) (instVal : String → Nat)
    (h : ∀ r ∈ objects_all, 0 ≤ order r) :
    0 ≤ field.pre_save objects_all fieldVal order instVal none := by
  cases hl : latestOrderVal order (scopeQS field objects_all fieldVal instVal) with
  | none =>
    have hv : field.pre_save objects_all fieldVal order instVal none = 0 := by
      simp only [OrderField.pre_save]
      rw [hl]
    rw [hv]
  | some m =>
    obtain ⟨⟨x, hx, hxm⟩, _⟩ := latestOrderVal_spec order _ m hl
    have hv : field.pre_save objects_all fieldVal order instVal none = m + 1 := by
      simp only [OrderField.pre_save]
      rw [hl]
    rw [hv, ← hxm]
    have hx0 := h x (scopeQS_subset field objects_all fieldVal instVal x hx)
    linarith

theorem createModule_nonneg (db : DB) (id course : Nat) (t d : String)
    (h : ordersNonneg db) : ordersNonneg (createModule db id course t d) := by
  constructor
  · intro m hm
    rcases List.mem_append.mp hm with hm | hm
    · exact h.1 m hm
    · rcases List.mem_singleton.mp hm with rfl
      exact pre_save_unset_nonneg _ _ _ _ _ h.1
  · exact h.2

theorem createContent_nonneg (db : DB) (cid mod oid : Nat) (k : Kind)
    (h : ordersNonneg db) : ordersNonneg (createContent db cid mod k oid) := by
  constructor
  · exact h.1
  · intro c hc
    rcases List.mem_append.mp hc with hc | hc
    · exact h.2 c hc
    · rcases List.mem_singleton.mp hc with rfl
      exact pre_save_unset_nonneg _ _ _ _ _ h.2

theorem ModuleOrderView_post_exceptDB (db : DB) (user : Nat)
    (entries : List (Nat × Int)) :
    exceptDB (ModuleOrderView.post db user entries)
      = { db with modules := exceptRows (orderUpdateLoop (moduleOwned db.courses user)
          Module.id (fun m o => { m with order := o }) db.modules entries) } := by
  unfold ModuleOrderView.post
  cases orderUpdateLoop (moduleOwned db.courses user) Module.id
      (fun m o => { m with order := o }) db.modules entries with
  | ok ms => rfl
  | error ms => rfl

theorem ContentOrderView_post_exceptDB (db : DB) (user : Nat)
    (entries : List (Nat × Int)) :
    exceptDB (ContentOrderView.post db user entries)
      = { db with contents := exceptRows (orderUpdateLoop
          (contentOwned db.courses db.modules user) Content.id
          (fun c o => { c with order := o }) db.contents entries) } := by
  unfold ContentOrderView.post
  cases orderUpdateLoop (contentOwned db.courses db.modules user) Content.id
      (fun c o => { c with order := o }) db.contents entries with
  | ok cs => rfl
  | error cs => rfl

/-- C9: every position of a `Module` or `Content` row is a non-negative
integer, and every operation that writes a position — creation through
the `OrderField` and the two reorder endpoints (whose negative writes
the database's `PositiveIntegerField` check constraint rejects), as
well as the content create/update view — preserves the invariant,
whichever way the request exits. -/
theorem C9_positions_stay_nonneg (db : DB) (h : ordersNonneg db)
    (id course : Nat) (t d : String) (cid mod oid : Nat) (k : Kind)
    (user : Nat) (entries centries : List (Nat × Int))
    (module_id : Nat) (model_name : String) (cuId : Option Nat) (form : ItemForm)
    (ni nc : Nat) :
    ordersNonneg (createModule db id course t d) ∧
    ordersNonneg (createContent db cid mod k oid) ∧
    ordersNonneg (exceptDB (ModuleOrderView.post db user entries)) ∧
    ordersNonneg (exceptDB (ContentOrderView.post db user centries)) ∧
    ordersNonneg (httpDB db
      (ContentCreateUpdateView.post db user module_id model_name cuId form ni nc)) := by
  refine ⟨createModule_nonneg db id course t d h,
    createContent_nonneg db cid mod oid k h, ?_, ?_, ?_⟩
  · rw [ModuleOrderView_post_exceptDB]
    exact ⟨orderUpdateLoop_nonneg (moduleOwned db.courses user) Module.id
      (fun m o => { m with order := o }) Module.order (fun r o => rfl)
      entries db.modules h.1, h.2⟩
  · rw [ContentOrderView_post_exceptDB]
    exact ⟨h.1, orderUpdateLoop_nonneg (contentOwned db.courses db.modules user)
      Content.id (fun c o => { c with order := o }) Content.order (fun r o => rfl)
      centries db.contents h.2⟩
  · unfold ContentCreateUpdateView.post
    cases ContentCreateUpdateView.dispatch db user module_id model_name cuId with
    | notFound => exact h
    | serverError => exact h
    | ok st =>
      dsimp only
      cases st.model with
      | none => exact h
      | some k' =>
        dsimp only
        by_cases hval : form.is_valid = true
        · rw [if_pos hval]
          cases st.obj with
          | some existing => exact h
          | none => exact createContent_nonneg _ nc st.module.id ni k' h
        · rw [if_neg hval]
          exact h

/-- Concrete instantiation of C9 on the fixture store, all hypotheses
evaluated. -/
theorem C9_witness :
    ordersNonneg (createModule wDB 13 1 "t" "d") ∧
    ordersNonneg (createContent wDB 20 10 Kind.text 5) ∧
    ordersNonneg (exceptDB (ModuleOrderView.post wDB 7 [(12, 0), (10, 2)])) ∧
    ordersNonneg (exceptDB (ContentOrderView.post wDB 7 [(20, 1)])) ∧
    ordersNonneg (httpDB wDB
      (ContentCreateUpdateView.post wDB 7 10 "text" none ⟨"t", "p"⟩ 5 6)) :=
  C9_positions_stay_nonneg wDB (by decide) 13 1 "t" "d" 20 10 5 Kind.text
    7 [(12, 0), (10, 2)] [(20, 1)] 10 "text" none ⟨"t", "p"⟩ 5 6

/-! ## The kind-tag check (C2) -/

/-- C2 counterexample: with course 1 and its module 10 owned by user 7,
a create request and an update request carrying the unrecognized
kind-tag "audio" both die with an unhandled error (server error), not
with the not-found condition the claim states — even though `get_model`
does map "audio" to no model. -/
theorem C2_counterexample_unknown_kind_crashes :
    ContentCreateUpdateView.get_model "audio" = none ∧
    ContentCreateUpdateView.post wDB 7 10 "audio" none ⟨"t", "p"⟩ 5 6
      = Http.serverError ∧
    ContentCreateUpdateView.post wDB 7 10 "audio" (some 3) ⟨"t", "p"⟩ 5 6
      = Http.serverError ∧
    ContentCreateUpdateView.post wDB 7 10 "audio" none ⟨"t", "p"⟩ 5 6
      ≠ Http.notFound := by
  refine ⟨rfl, rfl, rfl, ?_⟩
  decide

/-- C2 (amended): `get_model` checks the kind-tag against the fixed set
{text, file, image, video} and yields no model class for an
unrecognized tag, but the check runs only after the module record
lookup; a request carrying an unrecognized kind-tag is not rejected
with a not-found condition — when the module lookup succeeds the
request fails with an unhandled error (`get_object_or_404(None, ...)`
on the update path, `modelform_factory(None, ...)` via `get_form` on
the create path), and a not-found response arises only from the module
lookup itself. -/
theorem C2_amended_unknown_kind_behaviour (db : DB) (user module_id : Nat)
    (model_name : String) (id : Option Nat) (form : ItemForm) (ni nc : Nat)
    (hname : model_name ∉ ["text", "video", "image", "file"]) :
    ContentCreateUpdateView.get_model model_name = none ∧
    (∀ m, findModuleOwned db user module_id = some m →
      ContentCreateUpdateView.post db user module_id model_name id form ni nc
        = Http.serverError) ∧
    (findModuleOwned db user module_id = none →
      ContentCreateUpdateView.post db user module_id model_name id form ni nc
        = Http.notFound) := by
  have hgm : ContentCreateUpdateView.get_model model_name = none := by
    unfold ContentCreateUpdateView.get_model
    rw [if_neg]
    intro hmem
    exact hname (by simpa using hmem)
  refine ⟨hgm, ?_, ?_⟩
  · intro m hm
    unfold ContentCreateUpdateView.post ContentCreateUpdateView.dispatch
    rw [hm, hgm]
    cases id with
    | none => rfl
    | some i => rfl
  · intro hm
    unfold ContentCreateUpdateView.post ContentCreateUpdateView.dispatch
    rw [hm]

/-- Concrete instantiation of the amended C2 at the fixture store. -/
theorem C2_amended_witness :
    ContentCreateUpdateView.get_model "audio" = none ∧
    (∀ m, findModuleOwned wDB 7 10 = some m →
      ContentCreateUpdateView.post wDB 7 10 "audio" (some 3) ⟨"t", "p"⟩ 5 6
        = Http.serverError) ∧
    (findModuleOwned wDB 7 10 = none →
      ContentCreateUpdateView.post wDB 7 10 "audio" (some 3) ⟨"t", "p"⟩ 5 6
        = Http.notFound) :=
  C2_amended_unknown_kind_behaviour wDB 7 10 "audio" (some 3) ⟨"t", "p"⟩ 5 6 (by decide)

/-! ## Content deletion (C8) -/

/-- C8: deleting an owned Content association removes the referenced
concrete item row (deleted first, mirroring `content.item.delete()` at
views.py line 273) and then the association itself; afterwards neither
the association nor its item remains queryable, the other tables are
untouched, and the view redirects to the owning module's content
list. -/
theorem C8_delete_removes_item_and_association (db : DB) (user id : Nat)
    (content : Content) (db' : DB) (mid : Nat)
    (hfind : findContentOwned db user id = some content)
    (hok : ContentDeleteView.post db user id = Http.ok (db', mid)) :
    mid = content.module ∧
    (∀ c ∈ db'.contents, c.id ≠ content.id) ∧
    (∀ it ∈ db'.items,
      ¬(it.kind = content.content_type ∧ it.id = content.object_id)) ∧
    db'.modules = db.modules ∧ db'.courses = db.courses := by
  unfold ContentDeleteView.post at hok
  rw [hfind] at hok
  dsimp only at hok
  cases hitem : findItem db.items content.content_type content.object_id with
  | none =>
    rw [hitem] at hok
    cases hok
  | some it0 =>
    rw [hitem] at hok
    have hp := Http.ok.inj hok
    have hdb : db' = { db with
        items := db.items.filter (fun it =>
          !(it.kind == content.content_type && it.id == content.object_id)),
        contents := db.contents.filter (fun c => !(c.id == content.id)) } := by
      have := congrArg Prod.fst hp
      simpa using this.symm
    have hmid : mid = content.module := by
      have := congrArg Prod.snd hp
      simpa using this.symm
    subst hdb
    refine ⟨hmid, ?_, ?_, rfl, rfl⟩
    · intro c hc
      have := List.of_mem_filter hc
      simpa using this
    · intro it hit hcontra
      have := List.of_mem_filter hit
      rw [hcontra.1, hcontra.2] at this
      simp at this

/-- Concrete instantiation of C8: deleting content 20 (a text item)
owned through module 10 and course 1 by user 7 leaves no content row 20
and no text item 5. -/
theorem C8_witness :
    10 = wContent.module ∧
    (∀ c ∈ (DB.mk [wCourse] [wModule0] [] []).contents, c.id ≠ wContent.id) ∧
    (∀ it ∈ (DB.mk [wCourse] [wModule0] [] []).items,
      ¬(it.kind = wContent.content_type ∧ it.id = wContent.object_id)) ∧
    (DB.mk [wCourse] [wModule0] [] []).modules = wDBc.modules ∧
    (DB.mk [wCourse] [wModule0] [] []).courses = wDBc.courses :=
  C8_delete_removes_item_and_association wDBc 7 20 wContent
    (DB.mk [wCourse] [wModule0] [] []) 10 (by decide) (by decide)

/-! ## Owner assignment on content create/update (C10) -/

/-- C10: through the content create/update endpoint the saved concrete
item always belongs to the requesting user: the generated form excludes
the owner column (the embedded form data carries no owner), the view
assigns `obj.owner = request.user` before saving, so a successful
create stores the new item with the requester as owner, and after any
request whatsoever every item row either belongs to the requester or is
exactly as it was before — no item can be created for or reassigned to
another user here. -/
theorem C10_saved_item_owned_by_requester (db : DB) (user module_id : Nat)
    (model_name : String) (form : ItemForm) (ni nc : Nat) (m : Module) (k : Kind)
    (hm : findModuleOwned db user module_id = some m)
    (hk : ContentCreateUpdateView.get_model model_name = some k)
    (hv : form.is_valid = true) :
    (∃ db', ContentCreateUpdateView.post db user module_id model_name none form ni nc
        = Http.ok db' ∧ Item.mk k ni user form.title form.payload ∈ db'.items) ∧
    (∀ (anyId : Option Nat) (db' : DB),
      ContentCreateUpdateView.post db user module_id model_name anyId form ni nc
        = Http.ok db' →
      ∀ it ∈ db'.items, it.owner = user ∨ it ∈ db.items) := by
  constructor
  · have hpost : ContentCreateUpdateView.post db user module_id model_name none form ni nc
        = Http.ok (createContent
            { db with items := db.items ++ [⟨k, ni, user, form.title, form.payload⟩] }
            nc m.id k ni) := by
      unfold ContentCreateUpdateView.post ContentCreateUpdateView.dispatch
      rw [hm, hk]
      dsimp only
      rw [if_pos hv]
    refine ⟨_, hpost, ?_⟩
    show Item.mk k ni user form.title form.payload
      ∈ db.items ++ [Item.mk k ni user form.title form.payload]
    exact List.mem_append_right _ (List.mem_singleton.mpr rfl)
  · intro anyId db' heq it hit
    unfold ContentCreateUpdateView.post at heq
    cases hdisp : ContentCreateUpdateView.dispatch db user module_id model_name anyId with
    | notFound => rw [hdisp] at heq; cases heq
    | serverError => rw [hdisp] at heq; cases heq
    | ok st =>
      rw [hdisp] at heq
      dsimp only at heq
      cases hmod : st.model with
      | none => rw [hmod] at heq; cases heq
      | some k2 =>
        rw [hmod] at heq
        dsimp only at heq
        by_cases hval : form.is_valid = true
        · rw [if_pos hval] at heq
          cases hobj : st.obj with
          | some existing =>
            rw [hobj] at heq
            have hdb := Http.ok.inj heq
            rw [← hdb] at hit
            obtain ⟨it0, hit0, rfl⟩ := List.mem_map.mp hit
            by_cases hc : (it0.kind == k2 && it0.id == existing.id) = true
            · rw [if_pos hc]
              left
              rfl
            · rw [if_neg hc]
              right
              exact hit0
          | none =>
            rw [hobj] at heq
            have hdb := Http.ok.inj heq
            rw [← hdb] at hit
            rcases List.mem_append.mp hit with h1 | h1
            · right; exact h1
            · left
              rcases List.mem_singleton.mp h1 with rfl
              rfl
        · rw [if_neg hval] at heq
          have hdb := Http.ok.inj heq
          right
          rw [← hdb] at hit
          exact hit

/-- Concrete instantiation of C10: creating a text item through the
endpoint as user 7 stores it owned by user 7, and no request leaves an
item owned by anyone else changed. -/
theorem C10_witness :
    (∃ db', ContentCreateUpdateView.post wDB 7 10 "text" none ⟨"t", "p"⟩ 5 6
        = Http.ok db' ∧ Item.mk Kind.text 5 7 "t" "p" ∈ db'.items) ∧
    (∀ (anyId : Option Nat) (db' : DB),
      ContentCreateUpdateView.post wDB 7 10 "text" anyId ⟨"t", "p"⟩ 5 6 = Http.ok db' →
      ∀ it ∈ db'.items, it.owner = 7 ∨ it ∈ wDB.items) :=
  C10_saved_item_owned_by_requester wDB 7 10 "text" ⟨"t", "p"⟩ 5 6 wModule0 Kind.text
    (by decide) (by decide) (by decide)

end Edu
